import Mathlib

/-!
Shallow embedding of the Grafana envelope-encryption secrets core
(package `secrets`: `Secrets.Init`, `Secrets.newRandomDataKey`,
`Secrets.Encrypt`, `Secrets.Decrypt`, `Secrets.dataKey`), together with
models of the external collaborators the core calls into: the SQL data-key
store, the AEAD cipher primitive, and the static-secret provider.

Go byte slices are `List Nat` with values below 256; Go strings that carry
key names travel through `[]byte` conversions and base64, so key names are
modelled as raw byte lists as well.  Time is a `Nat` (seconds); the zero
instant models Go's zero `time.Time`.  Every service operation returns a
`Res` bundling the Go return value (`Except Err`), the updated in-memory
service state, the updated persistent store, and the list of store/provider
calls the operation performed (used to state frame and cache-effectiveness
properties).
-/

namespace GrafanaSecrets

/-- A Go byte slice: a list of byte values (each below 256). -/
abbrev Bytes := List Nat

/-- All bytes of the list are genuine byte values (below 256). -/
def WFBytes (l : Bytes) : Prop := ∀ b ∈ l, b < 256

instance (l : Bytes) : Decidable (WFBytes l) := by
  unfold WFBytes; infer_instance

/-- The ASCII code of the envelope delimiter character. -/
def hashByte : Nat := 35

/-- Errors surfaced by the secrets core and its collaborators.
`dataKeyNotFound` is the distinguished `models.ErrDataKeyNotFound`;
`malformedEnvelope` is the "could not find valid key in encrypted payload"
error; `providerNotFound` is the "could not find encryption provider" error;
`base64Error` is a `base64.CorruptInputError`; the remaining constructors
stand for failures of the external collaborators (cipher, store, randomness). -/
inductive Err where
  | dataKeyNotFound
  | malformedEnvelope
  | providerNotFound (id : String)
  | base64Error
  | cipherFailure
  | randomFailure
  | storeFailure
deriving DecidableEq, Repr

instance {ε α : Type} [DecidableEq ε] [DecidableEq α] :
    DecidableEq (Except ε α) := fun x y =>
  match x, y with
  | .error a, .error b =>
    if h : a = b then .isTrue (by rw [h]) else .isFalse (by simp [h])
  | .error _, .ok _ => .isFalse (by simp)
  | .ok _, .error _ => .isFalse (by simp)
  | .ok a, .ok b =>
    if h : a = b then .isTrue (by rw [h]) else .isFalse (by simp [h])

/-- `models.DataKey`: the persisted data-key record. -/
structure DataKey where
  active : Bool
  name : Bytes
  provider : String
  encryptedData : Bytes
deriving DecidableEq, Repr

/-- A cached decrypted data key (`dataKeyCacheItem`). -/
structure CacheItem where
  expiry : Nat
  dataKey : Bytes
deriving DecidableEq, Repr

/-- Modelled from the spec: the opaque AEAD primitive (`encrypt`/`decrypt`
from the utility package, not part of the sampled sources).  `encrypt p k`
encrypts payload `p` under data key `k`; `decrypt ct k` reverses it. -/
structure Cipher where
  encrypt : Bytes → Bytes → Except Err Bytes
  decrypt : Bytes → Bytes → Except Err Bytes

/-- The AEAD primitive recovers exactly the plaintext it encrypted. -/
def CipherRoundTrip (c : Cipher) : Prop :=
  ∀ k p ct, c.encrypt p k = .ok ct → c.decrypt ct k = .ok p

/-- The `Provider` interface: encrypts/decrypts data keys (not payloads). -/
structure Provider where
  encrypt : Bytes → Except Err Bytes
  decrypt : Bytes → Except Err Bytes

/-- Modelled from the spec: the built-in static-secret provider (`secretKey`
in the source, whose method bodies are not in the sampled sources): both
capabilities delegate to the fixed configured secret value. -/
def staticProvider (c : Cipher) (secret : Bytes) : Provider :=
  ⟨fun blob => c.encrypt blob secret, fun blob => c.decrypt blob secret⟩

/-- Modelled from the spec: the durable key store (`sqlstore.SQLStore`,
outside the sampled sources).  `records` is the persisted table;
`getFault`/`createFault` inject failures (timeout, unavailability) into the
respective store calls, `none` meaning the call reaches the table. -/
structure Store where
  records : List DataKey
  getFault : Option Err
  createFault : Option Err

/-- First record with the given name, in insertion order. -/
def findRecord : List DataKey → Bytes → Option DataKey
  | [], _ => none
  | r :: rest, k => if r.name = k then some r else findRecord rest k

/-- Modelled from the spec: `GetDataKey` fails with the distinguished
`DataKeyNotFound` condition when no record with that name exists. -/
def Store.get (st : Store) (k : Bytes) : Except Err DataKey :=
  match st.getFault with
  | some e => .error e
  | none =>
    match findRecord st.records k with
    | some r => .ok r
    | none => .error .dataKeyNotFound

/-- Modelled from the spec: `CreateDataKey` persists a new record. -/
def Store.create (st : Store) (r : DataKey) : Except Err Store :=
  match st.createFault with
  | some e => .error e
  | none => .ok { st with records := st.records ++ [r] }

/-- Lookup in an association list (a Go map read). -/
def alGet {κ α : Type} [DecidableEq κ] : List (κ × α) → κ → Option α
  | [], _ => none
  | (k', v) :: rest, k => if k' = k then some v else alGet rest k

/-- Deletion from an association list (Go `delete(m, k)`). -/
def alErase {κ α : Type} [DecidableEq κ] : List (κ × α) → κ → List (κ × α)
  | [], _ => []
  | (k', v) :: rest, k =>
    if k' = k then alErase rest k else (k', v) :: alErase rest k

/-- Insertion/overwrite in an association list (Go `m[k] = v`). -/
def alPut {κ α : Type} [DecidableEq κ] (m : List (κ × α)) (k : κ) (v : α) :
    List (κ × α) :=
  (k, v) :: alErase m k

/-- The in-memory state of the `Secrets` service.  `secretKeySetting` is the
process-wide `setting.SecretKey` as bytes; `cipher` is the external AEAD
primitive the service calls. -/
structure Secrets where
  cipher : Cipher
  secretKeySetting : Bytes
  defaultEncryptionKey : Bytes
  defaultProvider : String
  providers : List (String × Provider)
  dataKeyCache : List (Bytes × CacheItem)

/-- One observable call to an external collaborator. -/
inductive Event where
  | getDataKey (name : Bytes)
  | createDataKey (r : DataKey)
  | providerDecrypt (id : String)
deriving DecidableEq, Repr

/-- Result of a service operation: the Go return value, the service state
after the call, the store after the call, and the external calls made. -/
structure Res (α : Type) where
  val : Except Err α
  secrets : Secrets
  store : Store
  events : List Event

/-- The fixed TTL of cache entries: 15 minutes, in seconds. -/
def dataKeyTTL : Nat := 15 * 60

/-- The cache-miss path of `Secrets.dataKey` (steps 1–3 of the source):
fetch the record from the store, resolve its provider, decrypt the data key
through the provider, and fill the cache with a 15-minute TTL. -/
def Secrets.dataKeyFetch (s : Secrets) (st : Store) (now : Nat) (key : Bytes) :
    Res Bytes :=
  match st.get key with
  | .error e => ⟨.error e, s, st, [.getDataKey key]⟩
  | .ok r =>
    match alGet s.providers r.provider with
    | none => ⟨.error (.providerNotFound r.provider), s, st, [.getDataKey key]⟩
    | some prov =>
      match prov.decrypt r.encryptedData with
      | .error e =>
        ⟨.error e, s, st, [.getDataKey key, .providerDecrypt r.provider]⟩
      | .ok decrypted =>
        let cache := alPut s.dataKeyCache key ⟨now + dataKeyTTL, decrypted⟩
        ⟨.ok decrypted, { s with dataKeyCache := cache },
         st, [.getDataKey key, .providerDecrypt r.provider]⟩

/-- `Secrets.dataKey`: resolve a data key by name.  The empty name returns
the static configured secret directly; otherwise the cache is consulted
(lazily evicting an expired entry), falling back to the store/provider path. -/
def Secrets.dataKey (s : Secrets) (st : Store) (now : Nat) (key : Bytes) :
    Res Bytes :=
  if key = [] then ⟨.ok s.secretKeySetting, s, st, []⟩
  else
    match alGet s.dataKeyCache key with
    | some item =>
      if item.expiry < now ∧ item.expiry ≠ 0 then
        Secrets.dataKeyFetch
          { s with dataKeyCache := alErase s.dataKeyCache key } st now key
      else ⟨.ok item.dataKey, s, st, []⟩
    | none => s.dataKeyFetch st now key

/-- Modelled from the spec: the character of Go's standard base64 alphabet
at index `v` (for `v < 64`), as used by `base64.RawStdEncoding`. -/
def b64Char (v : Nat) : Nat :=
  if v < 26 then 65 + v
  else if v < 52 then 97 + (v - 26)
  else if v < 62 then 48 + (v - 52)
  else if v = 62 then 43
  else 47

/-- Modelled from the spec: the index of a character in Go's standard base64
alphabet, `none` for characters outside the alphabet. -/
def b64Val (c : Nat) : Option Nat :=
  if 65 ≤ c ∧ c ≤ 90 then some (c - 65)
  else if 97 ≤ c ∧ c ≤ 122 then some (c - 97 + 26)
  else if 48 ≤ c ∧ c ≤ 57 then some (c - 48 + 52)
  else if c = 43 then some 62
  else if c = 47 then some 63
  else none

/-- Modelled from the spec: `base64.RawStdEncoding.Encode` — standard
alphabet, no padding.  Inputs are reduced mod 256 as Go bytes are. -/
def b64Encode : Bytes → Bytes
  | [] => []
  | [a] =>
    [b64Char (a % 256 / 4), b64Char (a % 256 % 4 * 16)]
  | [a, b] =>
    [b64Char (a % 256 / 4), b64Char (a % 256 % 4 * 16 + b % 256 / 16),
     b64Char (b % 256 % 16 * 4)]
  | a :: b :: c :: rest =>
    b64Char (a % 256 / 4) :: b64Char (a % 256 % 4 * 16 + b % 256 / 16) ::
    b64Char (b % 256 % 16 * 4 + c % 256 / 64) :: b64Char (c % 256 % 64) ::
    b64Encode rest

/-- Modelled from the spec: `base64.RawStdEncoding.Decode` — fails on a
character outside the alphabet or on an input whose length is 1 mod 4. -/
def b64Decode : Bytes → Option Bytes
  | [] => some []
  | [_] => none
  | [c0, c1] =>
    match b64Val c0, b64Val c1 with
    | some v0, some v1 => some [v0 * 4 + v1 / 16]
    | _, _ => none
  | [c0, c1, c2] =>
    match b64Val c0, b64Val c1, b64Val c2 with
    | some v0, some v1, some v2 =>
      some [v0 * 4 + v1 / 16, v1 % 16 * 16 + v2 / 4]
    | _, _, _ => none
  | c0 :: c1 :: c2 :: c3 :: rest =>
    match b64Val c0, b64Val c1, b64Val c2, b64Val c3, b64Decode rest with
    | some v0, some v1, some v2, some v3, some tail =>
      some ((v0 * 4 + v1 / 16) :: (v1 % 16 * 16 + v2 / 4) :: (v2 % 4 * 64 + v3) :: tail)
    | _, _, _, _, _ => none

/-- The scan of `Decrypt` for the closing delimiter:
`bytes.Index(payload, '#')` followed by the two slicings
`payload[:endOfKey]` and `payload[endOfKey+1:]`; `none` when no `'#'`
occurs (Go's index -1). -/
def splitAtHash : Bytes → Option (Bytes × Bytes)
  | [] => none
  | x :: xs =>
    if x = hashByte then some ([], xs)
    else
      match splitAtHash xs with
      | none => none
      | some (pre, post) => some (x :: pre, post)

/-- `Secrets.Encrypt`: resolve the data key named `defaultEncryptionKey`,
encrypt the payload under it, and prepend the envelope header
`'#' + base64(keyName) + '#'`. -/
def Secrets.Encrypt (s : Secrets) (st : Store) (now : Nat) (payload : Bytes) :
    Res Bytes :=
  let key := s.defaultEncryptionKey
  let r := s.dataKey st now key
  match r.val with
  | .error e => ⟨.error e, r.secrets, r.store, r.events⟩
  | .ok dk =>
    match s.cipher.encrypt payload dk with
    | .error e => ⟨.error e, r.secrets, r.store, r.events⟩
    | .ok encrypted =>
      ⟨.ok (hashByte :: (b64Encode key ++ hashByte :: encrypted)),
       r.secrets, r.store, r.events⟩

/-- `Secrets.Decrypt`: empty input short-circuits to empty output; a blob
not starting with `'#'` is legacy ciphertext under the static secret; an
enveloped blob has its key name base64-decoded and resolved via `dataKey`. -/
def Secrets.Decrypt (s : Secrets) (st : Store) (now : Nat) (payload : Bytes) :
    Res Bytes :=
  match payload with
  | [] => ⟨.ok [], s, st, []⟩
  | p0 :: rest =>
    if p0 ≠ hashByte then
      ⟨s.cipher.decrypt (p0 :: rest) s.secretKeySetting, s, st, []⟩
    else
      match splitAtHash rest with
      | none => ⟨.error .malformedEnvelope, s, st, []⟩
      | some (b64Key, ciphertext) =>
        match b64Decode b64Key with
        | none => ⟨.error .base64Error, s, st, []⟩
        | some key =>
          let r := s.dataKey st now key
          match r.val with
          | .error e => ⟨.error e, r.secrets, r.store, r.events⟩
          | .ok dk => ⟨s.cipher.decrypt ciphertext dk, r.secrets, r.store, r.events⟩

/-- `Secrets.newRandomDataKey`: draw random bytes (the outcome of
`rand.Read` is passed in as `randomResult`), encrypt them through
`Encrypt`, and call `CreateDataKey`.  Faithful to the source, the error of
`CreateDataKey` is assigned but the function returns `nil` regardless. -/
def Secrets.newRandomDataKey (s : Secrets) (st : Store) (now : Nat)
    (randomResult : Except Err Bytes) (baseKey : Bytes) : Res Unit :=
  match randomResult with
  | .error e => ⟨.error e, s, st, []⟩
  | .ok b =>
    let r := s.Encrypt st now b
    match r.val with
    | .error e => ⟨.error e, r.secrets, r.store, r.events⟩
    | .ok encrypted =>
      let newRec : DataKey := ⟨true, baseKey, s.defaultProvider, encrypted⟩
      match r.store.create newRec with
      | .error _ =>
        ⟨.ok (), r.secrets, r.store, r.events ++ [.createDataKey newRec]⟩
      | .ok st2 =>
        ⟨.ok (), r.secrets, st2, r.events ++ [.createDataKey newRec]⟩

/-- The name of the bootstrap data key, `"root"` as bytes. -/
def rootKeyName : Bytes := [114, 111, 111, 116]

/-- `Secrets.Init`: register the static-secret provider under the empty id,
look up the `"root"` record, and create it via `newRandomDataKey` exactly
when the lookup failed with the distinguished not-found error. -/
def Secrets.Init (s : Secrets) (st : Store) (now : Nat)
    (randomResult : Except Err Bytes) : Res Unit :=
  let s1 := { s with providers := [("", staticProvider s.cipher s.secretKeySetting)] }
  match st.get rootKeyName with
  | .ok _ => ⟨.ok (), s1, st, [.getDataKey rootKeyName]⟩
  | .error e =>
    if e = .dataKeyNotFound then
      let r := s1.newRandomDataKey st now randomResult rootKeyName
      match r.val with
      | .error e2 => ⟨.error e2, r.secrets, r.store, .getDataKey rootKeyName :: r.events⟩
      | .ok _ => ⟨.ok (), r.secrets, r.store, .getDataKey rootKeyName :: r.events⟩
    else ⟨.error e, s1, st, [.getDataKey rootKeyName]⟩

/-- Number of persisted records with a given name. -/
def countByName (l : List DataKey) (k : Bytes) : Nat :=
  (l.filter (fun r => r.name = k)).length

/-! ### Concrete instances used to exercise the model on explicit inputs -/

/-- A concrete AEAD instance satisfying the round-trip contract: the
ciphertext is the key followed by the plaintext, and decryption checks the
key material before stripping it. -/
def testCipher : Cipher :=
  ⟨fun p k => .ok (k ++ p),
   fun ct k =>
     if ct.take k.length = k then .ok (ct.drop k.length)
     else .error .cipherFailure⟩

/-- A concrete static secret value. -/
def testSecret : Bytes := [1, 2]

/-- A service instance in its post-initialization shape: static-secret
provider registered under the empty id, empty cache, empty default key. -/
def testSecrets : Secrets where
  cipher := testCipher
  secretKeySetting := testSecret
  defaultEncryptionKey := []
  defaultProvider := ""
  providers := [("", staticProvider testCipher testSecret)]
  dataKeyCache := []

/-- A store with no records and no injected faults. -/
def emptyStore : Store := ⟨[], none, none⟩

/-- A store whose `CreateDataKey` call fails. -/
def faultyStore : Store := ⟨[], none, some .storeFailure⟩

/-- The byte string "k". -/
def kName : Bytes := [107]

/-- A record for "k" referencing an unregistered provider id. -/
def cexRecord : DataKey := ⟨true, kName, "nope", [5, 6]⟩

/-- A store holding only `cexRecord`. -/
def cexStore : Store := ⟨[cexRecord], none, none⟩

/-- Like `testSecrets` but with an expired cache entry for "k"
(expiry 1, which is both nonzero and in the past at time 100). -/
def cexSecrets : Secrets :=
  { testSecrets with dataKeyCache := [(kName, ⟨1, [9]⟩)] }

/-- A record for "k" whose encrypted data decrypts under the static-secret
provider of `testSecrets`. -/
def cacheRecord : DataKey := ⟨true, kName, "", testSecret ++ [7, 8]⟩

/-- A store holding only `cacheRecord`. -/
def cacheStore : Store := ⟨[cacheRecord], none, none⟩

/-! ### Base64 and envelope lemmas -/

theorem b64Val_b64Char : ∀ v < 64, b64Val (b64Char v) = some v := by decide

theorem b64Char_ne_hash (v : Nat) : b64Char v ≠ hashByte := by
  unfold b64Char hashByte
  split
  · omega
  split
  · omega
  split
  · omega
  split
  · omega
  · omega

theorem mem_b64Encode_ne_hash :
    ∀ (l : Bytes), ∀ x ∈ b64Encode l, x ≠ hashByte
  | [], x, hx => by simp [b64Encode] at hx
  | [a], x, hx => by
    simp only [b64Encode, List.mem_cons, List.not_mem_nil, or_false] at hx
    rcases hx with h | h <;> (subst h; exact b64Char_ne_hash _)
  | [a, b], x, hx => by
    simp only [b64Encode, List.mem_cons, List.not_mem_nil, or_false] at hx
    rcases hx with h | h | h <;> (subst h; exact b64Char_ne_hash _)
  | a :: b :: c :: rest, x, hx => by
    simp only [b64Encode, List.mem_cons] at hx
    rcases hx with h | h | h | h | h
    · subst h; exact b64Char_ne_hash _
    · subst h; exact b64Char_ne_hash _
    · subst h; exact b64Char_ne_hash _
    · subst h; exact b64Char_ne_hash _
    · exact mem_b64Encode_ne_hash rest x h

theorem b64Decode_b64Encode :
    ∀ (l : Bytes), WFBytes l → b64Decode (b64Encode l) = some l
  | [], _ => rfl
  | [a], h => by
    have ha : a < 256 := h a (by simp)
    simp only [b64Encode, Nat.mod_eq_of_lt ha, b64Decode]
    rw [b64Val_b64Char (a / 4) (by omega),
        b64Val_b64Char (a % 4 * 16) (by omega)]
    simp only [Option.some.injEq, List.cons.injEq, and_true]
    omega
  | [a, b], h => by
    have ha : a < 256 := h a (by simp)
    have hb : b < 256 := h b (by simp)
    simp only [b64Encode, Nat.mod_eq_of_lt ha, Nat.mod_eq_of_lt hb, b64Decode]
    rw [b64Val_b64Char (a / 4) (by omega),
        b64Val_b64Char (a % 4 * 16 + b / 16) (by omega),
        b64Val_b64Char (b % 16 * 4) (by omega)]
    simp only [Option.some.injEq, List.cons.injEq, and_true]
    omega
  | a :: b :: c :: rest, h => by
    have ha : a < 256 := h a (by simp)
    have hb : b < 256 := h b (by simp)
    have hc : c < 256 := h c (by simp)
    have ih := b64Decode_b64Encode rest (fun x hx => h x (by simp [hx]))
    simp only [b64Encode, Nat.mod_eq_of_lt ha, Nat.mod_eq_of_lt hb,
      Nat.mod_eq_of_lt hc, b64Decode]
    rw [b64Val_b64Char (a / 4) (by omega),
        b64Val_b64Char (a % 4 * 16 + b / 16) (by omega),
        b64Val_b64Char (b % 16 * 4 + c / 64) (by omega),
        b64Val_b64Char (c % 64) (by omega), ih]
    simp only [Option.some.injEq, List.cons.injEq, and_true]
    omega

theorem splitAtHash_eq_none {l : Bytes} (h : ∀ x ∈ l, x ≠ hashByte) :
    splitAtHash l = none := by
  induction l with
  | nil => rfl
  | cons x xs ih =>
    have hx : x ≠ hashByte := h x (by simp)
    simp [splitAtHash, hx, ih (fun y hy => h y (by simp [hy]))]

theorem splitAtHash_append {pre : Bytes} (post : Bytes)
    (h : ∀ x ∈ pre, x ≠ hashByte) :
    splitAtHash (pre ++ hashByte :: post) = some (pre, post) := by
  induction pre with
  | nil => simp [splitAtHash]
  | cons x xs ih =>
    have hx : x ≠ hashByte := h x (by simp)
    simp [splitAtHash, hx, ih (fun y hy => h y (by simp [hy]))]

/-! ### Cache and data-key resolution lemmas -/

theorem alGet_alPut_self {κ α : Type} [DecidableEq κ]
    (m : List (κ × α)) (k : κ) (v : α) :
    alGet (alPut m k v) k = some v := by
  simp [alPut, alGet]

theorem dataKeyFetch_fields (s : Secrets) (st : Store) (now : Nat) (key : Bytes) :
    (s.dataKeyFetch st now key).secrets.cipher = s.cipher
    ∧ (s.dataKeyFetch st now key).secrets.secretKeySetting = s.secretKeySetting
    ∧ (s.dataKeyFetch st now key).secrets.defaultEncryptionKey = s.defaultEncryptionKey
    ∧ (s.dataKeyFetch st now key).secrets.providers = s.providers
    ∧ (s.dataKeyFetch st now key).store = st := by
  unfold Secrets.dataKeyFetch
  split
  · simp
  · split
    · simp
    · split <;> simp

theorem dataKey_fields (s : Secrets) (st : Store) (now : Nat) (key : Bytes) :
    (s.dataKey st now key).secrets.cipher = s.cipher
    ∧ (s.dataKey st now key).secrets.secretKeySetting = s.secretKeySetting
    ∧ (s.dataKey st now key).secrets.defaultEncryptionKey = s.defaultEncryptionKey
    ∧ (s.dataKey st now key).secrets.providers = s.providers
    ∧ (s.dataKey st now key).store = st := by
  unfold Secrets.dataKey
  split
  · simp
  · split
    · split
      · exact dataKeyFetch_fields _ st now key
      · simp
    · exact dataKeyFetch_fields s st now key

theorem dataKeyFetch_stable {s : Secrets} {st : Store} {now : Nat}
    {key : Bytes} {dk : Bytes} (hk : key ≠ [])
    (h : (s.dataKeyFetch st now key).val = .ok dk) :
    ((s.dataKeyFetch st now key).secrets.dataKey
      (s.dataKeyFetch st now key).store now key).val = .ok dk := by
  cases hget : st.get key with
  | error e =>
    have hbad : (s.dataKeyFetch st now key).val = .error e := by
      simp [Secrets.dataKeyFetch, hget]
    rw [hbad] at h; simp at h
  | ok r =>
    cases hprov : alGet s.providers r.provider with
    | none =>
      have hbad : (s.dataKeyFetch st now key).val
          = .error (.providerNotFound r.provider) := by
        simp [Secrets.dataKeyFetch, hget, hprov]
      rw [hbad] at h; simp at h
    | some prov =>
      cases hdec : prov.decrypt r.encryptedData with
      | error e =>
        have hbad : (s.dataKeyFetch st now key).val = .error e := by
          simp [Secrets.dataKeyFetch, hget, hprov, hdec]
        rw [hbad] at h; simp at h
      | ok d =>
        have heq : s.dataKeyFetch st now key =
            ⟨.ok d, { s with dataKeyCache := alPut s.dataKeyCache key ⟨now + dataKeyTTL, d⟩ }, st, [.getDataKey key, .providerDecrypt r.provider]⟩ := by
          simp [Secrets.dataKeyFetch, hget, hprov, hdec]
        rw [heq] at h ⊢
        simp at h
        subst h
        have hcond : ¬(now + dataKeyTTL < now ∧ now + dataKeyTTL ≠ 0) := by
          unfold dataKeyTTL; omega
        simp [Secrets.dataKey, hk, alGet_alPut_self, hcond]

theorem dataKey_stable {s : Secrets} {st : Store} {now : Nat}
    {key : Bytes} {dk : Bytes}
    (h : (s.dataKey st now key).val = .ok dk) :
    ((s.dataKey st now key).secrets.dataKey
      (s.dataKey st now key).store now key).val = .ok dk := by
  by_cases hk : key = []
  · subst hk
    simp only [Secrets.dataKey, if_true] at h ⊢
    exact h
  · cases hcache : alGet s.dataKeyCache key with
    | some item =>
      by_cases hexp : item.expiry < now ∧ item.expiry ≠ 0
      · have hfetch : s.dataKey st now key =
            Secrets.dataKeyFetch
              { s with dataKeyCache := alErase s.dataKeyCache key } st now key := by
          simp [Secrets.dataKey, hk, hcache, hexp]
        rw [hfetch] at h ⊢
        exact dataKeyFetch_stable hk h
      · have hhit : s.dataKey st now key = ⟨.ok item.dataKey, s, st, []⟩ := by
          simp [Secrets.dataKey, hk, hcache, hexp]
        have hs : (s.dataKey st now key).secrets = s := by rw [hhit]
        have hst : (s.dataKey st now key).store = st := by rw [hhit]
        rw [hs, hst]
        exact h
    | none =>
      have hfetch : s.dataKey st now key = s.dataKeyFetch st now key := by
        simp [Secrets.dataKey, hk, hcache]
      rw [hfetch] at h ⊢
      exact dataKeyFetch_stable hk h

/-- Successful `Encrypt` produces exactly the enveloped blob
`'#' + base64(defaultEncryptionKey) + '#' + ciphertext` and carries the
state and events of its single data-key resolution. -/
theorem Encrypt_ok_shape {s : Secrets} {st : Store} {now : Nat} {p blob : Bytes}
    (h : (s.Encrypt st now p).val = .ok blob) :
    ∃ dk enc,
      (s.dataKey st now s.defaultEncryptionKey).val = .ok dk
      ∧ s.cipher.encrypt p dk = .ok enc
      ∧ blob = hashByte :: (b64Encode s.defaultEncryptionKey ++ hashByte :: enc)
      ∧ s.Encrypt st now p =
          ⟨.ok blob, (s.dataKey st now s.defaultEncryptionKey).secrets,
           (s.dataKey st now s.defaultEncryptionKey).store,
           (s.dataKey st now s.defaultEncryptionKey).events⟩ := by
  cases hdk : (s.dataKey st now s.defaultEncryptionKey).val with
  | error e =>
    have hbad : (s.Encrypt st now p).val = .error e := by
      simp [Secrets.Encrypt, hdk]
    rw [hbad] at h; simp at h
  | ok dk =>
    cases henc : s.cipher.encrypt p dk with
    | error e =>
      have hbad : (s.Encrypt st now p).val = .error e := by
        simp [Secrets.Encrypt, hdk, henc]
      rw [hbad] at h; simp at h
    | ok enc =>
      have heq : s.Encrypt st now p =
          ⟨.ok (hashByte :: (b64Encode s.defaultEncryptionKey ++ hashByte :: enc)),
           (s.dataKey st now s.defaultEncryptionKey).secrets,
           (s.dataKey st now s.defaultEncryptionKey).store,
           (s.dataKey st now s.defaultEncryptionKey).events⟩ := by
        simp [Secrets.Encrypt, hdk, henc]
      rw [heq] at h
      simp at h
      subst h
      exact ⟨dk, enc, rfl, henc, rfl, heq⟩

theorem testCipher_roundTrip : CipherRoundTrip testCipher := by
  intro k p ct h
  simp only [testCipher, Except.ok.injEq] at h
  subst h
  simp [testCipher]

/-! ### Branch equations for `dataKey` -/

theorem dataKey_cache_miss {s : Secrets} {st : Store} {now : Nat} {key : Bytes}
    (hk : key ≠ []) (hc : alGet s.dataKeyCache key = none) :
    s.dataKey st now key = s.dataKeyFetch st now key := by
  simp [Secrets.dataKey, hk, hc]

theorem dataKey_cache_hit {s : Secrets} {st : Store} {now : Nat} {key : Bytes}
    {item : CacheItem}
    (hk : key ≠ []) (hc : alGet s.dataKeyCache key = some item)
    (hval : ¬(item.expiry < now ∧ item.expiry ≠ 0)) :
    s.dataKey st now key = ⟨.ok item.dataKey, s, st, []⟩ := by
  simp [Secrets.dataKey, hk, hc, hval]

theorem dataKey_cache_expired {s : Secrets} {st : Store} {now : Nat} {key : Bytes}
    {item : CacheItem}
    (hk : key ≠ []) (hc : alGet s.dataKeyCache key = some item)
    (hval : item.expiry < now ∧ item.expiry ≠ 0) :
    s.dataKey st now key
      = Secrets.dataKeyFetch { s with dataKeyCache := alErase s.dataKeyCache key } st now key := by
  simp [Secrets.dataKey, hk, hc, hval]

theorem dataKeyFetch_ok {s : Secrets} {st : Store} {now : Nat} {key : Bytes}
    {r : DataKey} {prov : Provider} {dk : Bytes}
    (hget : st.get key = .ok r)
    (hprov : alGet s.providers r.provider = some prov)
    (hdec : prov.decrypt r.encryptedData = .ok dk) :
    s.dataKeyFetch st now key
      = ⟨.ok dk, { s with dataKeyCache := alPut s.dataKeyCache key ⟨now + dataKeyTTL, dk⟩ }, st, [.getDataKey key, .providerDecrypt r.provider]⟩ := by
  simp [Secrets.dataKeyFetch, hget, hprov, hdec]

/-! ### Frame lemmas: no store writes on the read path -/

theorem dataKeyFetch_frame (s : Secrets) (st : Store) (now : Nat) (key : Bytes) :
    (s.dataKeyFetch st now key).store = st
    ∧ ∀ r, Event.createDataKey r ∉ (s.dataKeyFetch st now key).events := by
  unfold Secrets.dataKeyFetch
  split
  · simp
  · split
    · simp
    · split <;> simp

theorem dataKey_frame (s : Secrets) (st : Store) (now : Nat) (key : Bytes) :
    (s.dataKey st now key).store = st
    ∧ ∀ r, Event.createDataKey r ∉ (s.dataKey st now key).events := by
  unfold Secrets.dataKey
  split
  · simp
  · split
    · split
      · exact dataKeyFetch_frame _ st now key
      · simp
    · exact dataKeyFetch_frame s st now key

theorem Decrypt_frame (s : Secrets) (st : Store) (now : Nat) (p : Bytes) :
    (s.Decrypt st now p).store = st
    ∧ ∀ r, Event.createDataKey r ∉ (s.Decrypt st now p).events := by
  cases p with
  | nil => simp [Secrets.Decrypt]
  | cons p0 rest =>
    by_cases h0 : p0 = hashByte
    · subst h0
      cases hsplit : splitAtHash rest with
      | none =>
        have heq : s.Decrypt st now (hashByte :: rest)
            = ⟨.error .malformedEnvelope, s, st, []⟩ := by
          simp [Secrets.Decrypt, hsplit]
        rw [heq]; simp
      | some pr =>
        obtain ⟨pre, post⟩ := pr
        cases hdec : b64Decode pre with
        | none =>
          have heq : s.Decrypt st now (hashByte :: rest)
              = ⟨.error .base64Error, s, st, []⟩ := by
            simp [Secrets.Decrypt, hsplit, hdec]
          rw [heq]; simp
        | some key =>
          have hst := (dataKey_fields s st now key).2.2.2.2
          have hev := (dataKey_frame s st now key).2
          cases hval : (s.dataKey st now key).val with
          | error e =>
            have heq : s.Decrypt st now (hashByte :: rest)
                = ⟨.error e, (s.dataKey st now key).secrets,
                   (s.dataKey st now key).store, (s.dataKey st now key).events⟩ := by
              simp [Secrets.Decrypt, hsplit, hdec, hval]
            rw [heq]
            exact ⟨hst, hev⟩
          | ok dk =>
            have heq : s.Decrypt st now (hashByte :: rest)
                = ⟨s.cipher.decrypt post dk, (s.dataKey st now key).secrets,
                   (s.dataKey st now key).store, (s.dataKey st now key).events⟩ := by
              simp [Secrets.Decrypt, hsplit, hdec, hval]
            rw [heq]
            exact ⟨hst, hev⟩
    · have heq : s.Decrypt st now (p0 :: rest)
          = ⟨s.cipher.decrypt (p0 :: rest) s.secretKeySetting, s, st, []⟩ := by
        simp [Secrets.Decrypt, h0]
      rw [heq]; simp

/-! ### Claim theorems -/

/-- C2: `Decrypt` of the empty blob returns empty bytes with no error,
leaves the service state and the store untouched, and performs no store or
provider call (empty event list). -/
theorem C2_emptyInputShortcut (s : Secrets) (st : Store) (now : Nat) :
    s.Decrypt st now [] = ⟨.ok [], s, st, []⟩ := rfl

/-- C3: a blob whose first byte is `'#'` with no second `'#'` afterwards
makes `Decrypt` fail with the malformed-envelope error, returning no
plaintext and touching nothing. -/
theorem C3_malformedEnvelope (s : Secrets) (st : Store) (now : Nat)
    (rest : Bytes) (h : ∀ x ∈ rest, x ≠ hashByte) :
    s.Decrypt st now (hashByte :: rest)
      = ⟨.error .malformedEnvelope, s, st, []⟩ := by
  simp [Secrets.Decrypt, splitAtHash_eq_none h]

theorem C3_witness :
    (∀ x ∈ ([65, 66] : Bytes), x ≠ hashByte)
    ∧ testSecrets.Decrypt emptyStore 0 (hashByte :: [65, 66])
        = ⟨.error .malformedEnvelope, testSecrets, emptyStore, []⟩ :=
  ⟨by decide, C3_malformedEnvelope testSecrets emptyStore 0 [65, 66] (by decide)⟩

/-- C9: every blob produced by a successful `Encrypt` is non-empty and
starts with the `'#'` byte, so `Decrypt` of it takes neither the
empty-input shortcut nor the legacy (no-envelope) path. -/
theorem C9_encryptEnveloped (s : Secrets) (st : Store) (now : Nat)
    (p blob : Bytes) (h : (s.Encrypt st now p).val = .ok blob) :
    blob ≠ [] ∧ blob.head? = some hashByte := by
  obtain ⟨dk, enc, -, -, hblob, -⟩ := Encrypt_ok_shape h
  subst hblob
  exact ⟨by simp, rfl⟩

theorem C9_witness :
    (testSecrets.Encrypt emptyStore 0 [7]).val = .ok [35, 35, 1, 2, 7]
    ∧ ([35, 35, 1, 2, 7] : Bytes) ≠ []
    ∧ ([35, 35, 1, 2, 7] : Bytes).head? = some hashByte :=
  ⟨by decide, C9_encryptEnveloped testSecrets emptyStore 0 [7] [35, 35, 1, 2, 7] (by decide)⟩

/-- C10: `Decrypt` and `dataKey` never write to the persistent store: the
store is unchanged by every call, and no `CreateDataKey` call is among the
store operations they perform. -/
theorem C10_readPathNeverWrites (s : Secrets) (st : Store) (now : Nat)
    (p key : Bytes) :
    ((s.Decrypt st now p).store = st
      ∧ ∀ r, Event.createDataKey r ∉ (s.Decrypt st now p).events)
    ∧ ((s.dataKey st now key).store = st
      ∧ ∀ r, Event.createDataKey r ∉ (s.dataKey st now key).events) :=
  ⟨Decrypt_frame s st now p, dataKey_frame s st now key⟩

/-- C5: with the empty default key name, every successful `Encrypt` output
begins with two `'#'` bytes, and `Decrypt` of that blob uses the static
configured secret as the data key, with no store lookup, no provider call,
and no state change. -/
theorem C5_emptyKeyName (s : Secrets) (st : Store) (now : Nat) (p blob : Bytes)
    (hdek : s.defaultEncryptionKey = [])
    (h : (s.Encrypt st now p).val = .ok blob) :
    blob.take 2 = [hashByte, hashByte]
    ∧ s.Decrypt st now blob
        = ⟨s.cipher.decrypt (blob.drop 2) s.secretKeySetting, s, st, []⟩ := by
  obtain ⟨dk, enc, -, -, hblob, -⟩ := Encrypt_ok_shape h
  rw [hdek] at hblob
  subst hblob
  constructor
  · rfl
  · simp [Secrets.Decrypt, Secrets.dataKey, splitAtHash, b64Decode, b64Encode]

theorem C5_witness :
    testSecrets.defaultEncryptionKey = []
    ∧ (testSecrets.Encrypt emptyStore 0 [7]).val = .ok [35, 35, 1, 2, 7]
    ∧ ([35, 35, 1, 2, 7] : Bytes).take 2 = [hashByte, hashByte]
    ∧ testSecrets.Decrypt emptyStore 0 [35, 35, 1, 2, 7]
        = ⟨testSecrets.cipher.decrypt (([35, 35, 1, 2, 7] : Bytes).drop 2)
            testSecrets.secretKeySetting, testSecrets, emptyStore, []⟩ :=
  ⟨rfl, by decide,
   C5_emptyKeyName testSecrets emptyStore 0 [7] [35, 35, 1, 2, 7] rfl (by decide)⟩

/-- C1: for every byte sequence `p`, on an initialized service whose AEAD
primitive satisfies its round-trip contract, if `Encrypt p` succeeds then
`Decrypt` of the produced blob (against the post-`Encrypt` state) returns
exactly `p`. -/
theorem C1_roundTrip (s : Secrets) (st : Store) (now : Nat) (p blob : Bytes)
    (hc : CipherRoundTrip s.cipher)
    (hwf : WFBytes s.defaultEncryptionKey)
    (h : (s.Encrypt st now p).val = .ok blob) :
    ((s.Encrypt st now p).secrets.Decrypt (s.Encrypt st now p).store now blob).val
      = .ok p := by
  obtain ⟨dk, enc, hdk, henc, hblob, hres⟩ := Encrypt_ok_shape h
  subst hblob
  rw [hres]
  show ((s.dataKey st now s.defaultEncryptionKey).secrets.Decrypt
      (s.dataKey st now s.defaultEncryptionKey).store now
      (hashByte :: (b64Encode s.defaultEncryptionKey ++ hashByte :: enc))).val
    = .ok p
  have hsp : splitAtHash (b64Encode s.defaultEncryptionKey ++ hashByte :: enc)
      = some (b64Encode s.defaultEncryptionKey, enc) :=
    splitAtHash_append enc (mem_b64Encode_ne_hash s.defaultEncryptionKey)
  have hb64 : b64Decode (b64Encode s.defaultEncryptionKey)
      = some s.defaultEncryptionKey := b64Decode_b64Encode _ hwf
  have hstable := dataKey_stable hdk
  have hciph := (dataKey_fields s st now s.defaultEncryptionKey).1
  simp [Secrets.Decrypt, hsp, hb64, hstable, hciph]
  exact hc dk p enc henc

theorem C1_witness :
    CipherRoundTrip testSecrets.cipher
    ∧ WFBytes testSecrets.defaultEncryptionKey
    ∧ (testSecrets.Encrypt emptyStore 0 [7, 255]).val = .ok [35, 35, 1, 2, 7, 255]
    ∧ ((testSecrets.Encrypt emptyStore 0 [7, 255]).secrets.Decrypt
        (testSecrets.Encrypt emptyStore 0 [7, 255]).store 0
        [35, 35, 1, 2, 7, 255]).val = .ok [7, 255] :=
  ⟨testCipher_roundTrip, by decide, by decide,
   C1_roundTrip testSecrets emptyStore 0 [7, 255] [35, 35, 1, 2, 7, 255]
     testCipher_roundTrip (by decide) (by decide)⟩

/-- C6 counterexample: a call can fail with the provider-not-found error
and still mutate the cache.  At time 100, with an expired cache entry for
"k" and a record for "k" referencing the unregistered provider "nope", the
call fails as claimed but evicts the expired entry, so the cache is not
left unchanged. -/
theorem C6_counterexample :
    (cexSecrets.dataKey cexStore 100 kName).val
      = .error (.providerNotFound "nope")
    ∧ (cexSecrets.dataKey cexStore 100 kName).secrets.dataKeyCache
      ≠ cexSecrets.dataKeyCache := by
  decide

/-- C6 (amended): for every non-empty key name with no cache entry whose
record references an unregistered provider id, `dataKey` fails with the
provider-not-found error and leaves the service state (in particular the
cache) and the store unchanged, having performed only the store read. -/
theorem C6_providerNotFound (s : Secrets) (st : Store) (now : Nat)
    (key : Bytes) (r : DataKey)
    (hk : key ≠ [])
    (hc : alGet s.dataKeyCache key = none)
    (hg : st.get key = .ok r)
    (hp : alGet s.providers r.provider = none) :
    s.dataKey st now key
      = ⟨.error (.providerNotFound r.provider), s, st, [.getDataKey key]⟩ := by
  simp [Secrets.dataKey, hk, hc, Secrets.dataKeyFetch, hg, hp]

theorem C6_witness :
    kName ≠ []
    ∧ alGet testSecrets.dataKeyCache kName = none
    ∧ cexStore.get kName = .ok cexRecord
    ∧ alGet testSecrets.providers cexRecord.provider = none
    ∧ testSecrets.dataKey cexStore 100 kName
        = ⟨.error (.providerNotFound cexRecord.provider), testSecrets, cexStore,
           [.getDataKey kName]⟩ :=
  ⟨by decide, rfl, by decide, rfl,
   C6_providerNotFound testSecrets cexStore 100 kName cexRecord
     (by decide) rfl (by decide) rfl⟩

/-- C7: on a cache miss at time `t`, resolution performs exactly one store
fetch and one provider decrypt; any second call up to the 15-minute expiry
is served from the cache with no external call; a call strictly after the
expiry evicts the entry and performs a second fetch (and decrypt). -/
theorem C7_cacheEffectiveness (s : Secrets) (st : Store) (t : Nat) (key : Bytes)
    (r : DataKey) (prov : Provider) (dk : Bytes)
    (hk : key ≠ [])
    (hc : alGet s.dataKeyCache key = none)
    (hget : st.get key = .ok r)
    (hprov : alGet s.providers r.provider = some prov)
    (hdec : prov.decrypt r.encryptedData = .ok dk) :
    (s.dataKey st t key).val = .ok dk
    ∧ (s.dataKey st t key).events = [.getDataKey key, .providerDecrypt r.provider]
    ∧ (∀ t1, t1 ≤ t + dataKeyTTL →
        ((s.dataKey st t key).secrets.dataKey (s.dataKey st t key).store t1 key).val
          = .ok dk
        ∧ ((s.dataKey st t key).secrets.dataKey (s.dataKey st t key).store t1 key).events
          = [])
    ∧ (∀ t2, t + dataKeyTTL < t2 →
        ((s.dataKey st t key).secrets.dataKey (s.dataKey st t key).store t2 key).events
          = [.getDataKey key, .providerDecrypt r.provider]) := by
  have heq : s.dataKey st t key
      = ⟨.ok dk, { s with dataKeyCache := alPut s.dataKeyCache key ⟨t + dataKeyTTL, dk⟩ }, st, [.getDataKey key, .providerDecrypt r.provider]⟩ := by
    rw [dataKey_cache_miss hk hc, dataKeyFetch_ok hget hprov hdec]
  refine ⟨by rw [heq], by rw [heq], ?_, ?_⟩
  · intro t1 ht1
    have hcond : ¬((⟨t + dataKeyTTL, dk⟩ : CacheItem).expiry < t1
        ∧ (⟨t + dataKeyTTL, dk⟩ : CacheItem).expiry ≠ 0) := by
      show ¬(t + dataKeyTTL < t1 ∧ t + dataKeyTTL ≠ 0)
      unfold dataKeyTTL at ht1 ⊢; omega
    have hhit := @dataKey_cache_hit
      { s with dataKeyCache := alPut s.dataKeyCache key ⟨t + dataKeyTTL, dk⟩ }
      st t1 key ⟨t + dataKeyTTL, dk⟩
      hk (alGet_alPut_self s.dataKeyCache key ⟨t + dataKeyTTL, dk⟩) hcond
    simp only [heq]
    rw [hhit]
    exact ⟨rfl, rfl⟩
  · intro t2 ht2
    have hcond : (⟨t + dataKeyTTL, dk⟩ : CacheItem).expiry < t2
        ∧ (⟨t + dataKeyTTL, dk⟩ : CacheItem).expiry ≠ 0 := by
      show t + dataKeyTTL < t2 ∧ t + dataKeyTTL ≠ 0
      unfold dataKeyTTL at ht2 ⊢; omega
    have hexp := @dataKey_cache_expired
      { s with dataKeyCache := alPut s.dataKeyCache key ⟨t + dataKeyTTL, dk⟩ }
      st t2 key ⟨t + dataKeyTTL, dk⟩
      hk (alGet_alPut_self s.dataKeyCache key ⟨t + dataKeyTTL, dk⟩) hcond
    simp only [heq]
    rw [hexp]
    simp [Secrets.dataKeyFetch, hget, hprov, hdec]

theorem C7_witness :
    (testSecrets.dataKey cacheStore 0 kName).val = .ok [7, 8]
    ∧ (testSecrets.dataKey cacheStore 0 kName).events
        = [.getDataKey kName, .providerDecrypt ""]
    ∧ ((testSecrets.dataKey cacheStore 0 kName).secrets.dataKey
        (testSecrets.dataKey cacheStore 0 kName).store 900 kName).events = []
    ∧ ((testSecrets.dataKey cacheStore 0 kName).secrets.dataKey
        (testSecrets.dataKey cacheStore 0 kName).store 901 kName).events
        = [.getDataKey kName, .providerDecrypt ""] := by
  have h := C7_cacheEffectiveness testSecrets cacheStore 0 kName cacheRecord
    (staticProvider testCipher testSecret) [7, 8]
    (by decide) rfl (by decide) rfl (by decide)
  exact ⟨h.1, h.2.1, (h.2.2.1 900 (by decide)).2, h.2.2.2 901 (by decide)⟩

theorem findRecord_append_none :
    ∀ {l : List DataKey} (l2 : List DataKey) {k : Bytes},
      findRecord l k = none → findRecord (l ++ l2) k = findRecord l2 k
  | [], _, _, _ => rfl
  | r :: rest, l2, k, h => by
    by_cases hr : r.name = k
    · rw [findRecord, if_pos hr] at h
      exact absurd h (by simp)
    · rw [findRecord, if_neg hr] at h
      rw [List.cons_append, findRecord, if_neg hr]
      exact findRecord_append_none l2 h

theorem countByName_eq_zero :
    ∀ {l : List DataKey} {k : Bytes}, findRecord l k = none → countByName l k = 0
  | [], _, _ => rfl
  | r :: rest, k, h => by
    by_cases hr : r.name = k
    · rw [findRecord, if_pos hr] at h
      exact absurd h (by simp)
    · rw [findRecord, if_neg hr] at h
      show (List.filter _ (r :: rest)).length = 0
      rw [List.filter_cons_of_neg (by simp [hr])]
      exact countByName_eq_zero h

theorem countByName_append (l l2 : List DataKey) (k : Bytes) :
    countByName (l ++ l2) k = countByName l k + countByName l2 k := by
  simp [countByName, List.filter_append]

/-- C8: `Init` is idempotent.  Starting from a store with no `"root"`
record and a working store/cipher/random source: the first `Init` succeeds
and results in exactly one `"root"` record; a second `Init` against the
resulting store succeeds, performs only the lookup (no store write, store
unchanged); and an injected lookup failure other than the distinguished
not-found error makes `Init` fail with that error. -/
theorem C8_initIdempotent (s : Secrets) (st : Store) (t t2 : Nat)
    (rb encb : Bytes) (rr2 : Except Err Bytes)
    (hdek : s.defaultEncryptionKey = [])
    (hgf : st.getFault = none) (hcf : st.createFault = none)
    (hroot : findRecord st.records rootKeyName = none)
    (henc : s.cipher.encrypt rb s.secretKeySetting = .ok encb) :
    (s.Init st t (.ok rb)).val = .ok ()
    ∧ countByName (s.Init st t (.ok rb)).store.records rootKeyName = 1
    ∧ ((s.Init st t (.ok rb)).secrets.Init (s.Init st t (.ok rb)).store t2 rr2).val
        = .ok ()
    ∧ ((s.Init st t (.ok rb)).secrets.Init (s.Init st t (.ok rb)).store t2 rr2).store
        = (s.Init st t (.ok rb)).store
    ∧ ((s.Init st t (.ok rb)).secrets.Init (s.Init st t (.ok rb)).store t2 rr2).events
        = [.getDataKey rootKeyName]
    ∧ (∀ e : Err, e ≠ .dataKeyNotFound →
        (s.Init { st with getFault := some e } t (.ok rb)).val = .error e) := by
  have hg1 : st.get rootKeyName = .error .dataKeyNotFound := by
    simp [Store.get, hgf, hroot]
  have h1 : s.Init st t (.ok rb)
      = ⟨.ok (),
         { s with providers := [("", staticProvider s.cipher s.secretKeySetting)] },
         { st with records := st.records ++ [⟨true, rootKeyName, s.defaultProvider, hashByte :: hashByte :: encb⟩] },
         [.getDataKey rootKeyName, .createDataKey ⟨true, rootKeyName, s.defaultProvider, hashByte :: hashByte :: encb⟩]⟩ := by
    simp [Secrets.Init, hg1, Secrets.newRandomDataKey, Secrets.Encrypt,
      Secrets.dataKey, hdek, henc, Store.create, hcf, b64Encode]
  have hg2 : (s.Init st t (.ok rb)).store.get rootKeyName
      = .ok ⟨true, rootKeyName, s.defaultProvider, hashByte :: hashByte :: encb⟩ := by
    simp only [h1]
    simp [Store.get, hgf, findRecord_append_none _ hroot, findRecord]
  have h3 : (s.Init st t (.ok rb)).secrets.Init (s.Init st t (.ok rb)).store t2 rr2
      = ⟨.ok (),
         { (s.Init st t (.ok rb)).secrets with providers := [("", staticProvider s.cipher s.secretKeySetting)] },
         (s.Init st t (.ok rb)).store, [.getDataKey rootKeyName]⟩ := by
    rw [Secrets.Init, hg2]
    simp only [h1]
  refine ⟨by rw [h1], ?_, by rw [h3], by rw [h3], by rw [h3], ?_⟩
  · rw [h1]
    show countByName (st.records ++ [⟨true, rootKeyName, s.defaultProvider, hashByte :: hashByte :: encb⟩]) rootKeyName = 1
    rw [countByName_append, countByName_eq_zero hroot]
    simp [countByName]
  · intro e he
    have hge : (({ st with getFault := some e }) : Store).get rootKeyName = .error e := by
      simp [Store.get]
    simp [Secrets.Init, hge, he]

theorem C8_witness :
    testSecrets.defaultEncryptionKey = []
    ∧ emptyStore.getFault = none
    ∧ emptyStore.createFault = none
    ∧ findRecord emptyStore.records rootKeyName = none
    ∧ testSecrets.cipher.encrypt [9] testSecrets.secretKeySetting = .ok [1, 2, 9]
    ∧ (testSecrets.Init emptyStore 0 (.ok [9])).val = .ok ()
    ∧ countByName (testSecrets.Init emptyStore 0 (.ok [9])).store.records rootKeyName = 1
    ∧ ((testSecrets.Init emptyStore 0 (.ok [9])).secrets.Init
        (testSecrets.Init emptyStore 0 (.ok [9])).store 5 (.ok [4])).val = .ok ()
    ∧ ((testSecrets.Init emptyStore 0 (.ok [9])).secrets.Init
        (testSecrets.Init emptyStore 0 (.ok [9])).store 5 (.ok [4])).store
        = (testSecrets.Init emptyStore 0 (.ok [9])).store
    ∧ ((testSecrets.Init emptyStore 0 (.ok [9])).secrets.Init
        (testSecrets.Init emptyStore 0 (.ok [9])).store 5 (.ok [4])).events
        = [.getDataKey rootKeyName]
    ∧ (testSecrets.Init { emptyStore with getFault := some .storeFailure } 0 (.ok [9])).val
        = .error .storeFailure := by
  have h := C8_initIdempotent testSecrets emptyStore 0 5 [9] [1, 2, 9] (.ok [4])
    rfl rfl rfl rfl (by decide)
  exact ⟨rfl, rfl, rfl, rfl, by decide, h.1, h.2.1, h.2.2.1, h.2.2.2.1,
    h.2.2.2.2.1, h.2.2.2.2.2 .storeFailure (by decide)⟩

/-- C4 (code bug): `newRandomDataKey` assigns the error of `CreateDataKey`
but returns `nil` regardless; with random generation and encryption
succeeding and persistence failing, it reports success even though no
record was persisted — contradicting the claim that it must fail whenever
persistence fails. -/
theorem C4_createErrorSwallowed :
    (testSecrets.newRandomDataKey faultyStore 0 (.ok [9]) rootKeyName).val = .ok ()
    ∧ (testSecrets.newRandomDataKey faultyStore 0 (.ok [9]) rootKeyName).store.records
        = [] := by
  decide

end GrafanaSecrets
